import Mathlib

/-!
Formal model of the Minecraft-Miner client: the protocol-version
negotiation script (`fix-protocol.sh`, second revision in the file) and the
mining session state machine, chat command dispatch, stop handler and
position encoding of `main.go`.  All definitions are shallow embeddings of
the corresponding source fragments; machine integers are modelled as `Int`
(with explicit `% 2 ^ 64` where Go's 64-bit wrap-around matters).
-/

/-! ## Candidate-list builder (fix-protocol.sh, candidate generation) -/

/-- Window of protocol candidates around a reported version `r`, as built by
the shell loop `for offset in 1 .. radius`: for each offset, `r - offset` is
appended when it is positive (guard `-gt 0`), then `r + offset`.  The shell
script hard-codes `radius = 2` (`for offset in 1 2`); the radius is the
generalised parameter of the spec's `buildCandidates`. -/
def windowList (r : Int) : Nat → List Int
  | 0 => [r]
  | k + 1 =>
    windowList r k
      ++ (if 0 < r - (k + 1 : Int) then [r - (k + 1 : Int)] else [])
      ++ [r + (k + 1 : Int)]

/-- The merge-with-fallback loop of the shell script: append each default
candidate unless it is already present in the accumulated array. -/
def dedupAppend (acc : List Int) (defaults : List Int) : List Int :=
  defaults.foldl (fun a p => if p ∈ a then a else a ++ [p]) acc

/-- Spec-side reference for the tail of the candidate list, following the
spec's words: "the `defaults` list with any value already present omitted",
first-seen order preserved — walk the defaults in order, keep a value only
when it is in neither the already-seen list nor the kept values so far.
Used solely to compare against the merge loop embedded in `dedupAppend`. -/
def specFilteredDefaults (seen : List Int) : List Int → List Int
  | [] => []
  | p :: ds =>
    if p ∈ seen then specFilteredDefaults seen ds
    else p :: specFilteredDefaults (seen ++ [p]) ds

/-- Spec §4.1 `buildCandidates`, embedded from the candidate-generation block
of fix-protocol.sh: if a reported version is present the array starts as the
window around it and the defaults are merged in with duplicates skipped;
otherwise the array is exactly the default list (copied verbatim, with no
de-duplication pass). -/
def buildCandidates (reported : Option Int) (defaults : List Int)
    (windowRadius : Nat) : List Int :=
  match reported with
  | none => defaults
  | some r => dedupAppend (windowList r windowRadius) defaults

/-! ## Mining simulation (main.go, simulateMining) -/

/-- Shared mining-session state of main.go together with counters for the
side effects emitted so far (arm swings, mine actions, break notifications).
`finished` records that the `simulateMining` loop has exited for this
activation. -/
structure SimState where
  durability : Int
  ticks : Int
  finished : Bool
  swings : Nat
  mines : Nat
  breaks : Nat
deriving DecidableEq

/-- Session state installed by `handleMineCommand`: durability 100, tick
counter 0, fresh activation. -/
def initMining : SimState := ⟨100, 0, false, 0, 0, 0⟩

/-- One iteration of the `simulateMining` loop (main.go lines 375-423) with
the stop flag read at the top of the iteration passed in as `stop`: exit on
stop; read durability and tick counter and increment the counter; exit when
the read durability is non-positive; swing the arm every 10th tick; every
40th tick deduct 5 durability and either notify the break (when the new
value is non-positive) and exit, or perform one mine action. -/
def tickStep (stop : Bool) (s : SimState) : SimState :=
  if s.finished then s
  else if stop then { s with finished := true }
  else
    let d := s.durability
    let t := s.ticks
    let s1 := { s with ticks := t + 1 }
    if d ≤ 0 then { s1 with finished := true }
    else
      let s2 := if t % 10 = 0 then { s1 with swings := s1.swings + 1 } else s1
      if t % 40 = 0 then
        let d2 := d - 5
        let s3 := { s2 with durability := d2 }
        if d2 ≤ 0 then { s3 with breaks := s3.breaks + 1, finished := true }
        else { s3 with mines := s3.mines + 1 }
      else s2

/-- Run `n` ticks of the simulation with the stop flag never set. -/
def runFor : Nat → SimState → SimState
  | 0, s => s
  | n + 1, s => runFor n (tickStep false s)

/-- Run one tick per entry of `bs`, where each entry is the value of the
shared stop flag observed at the top of that tick. -/
def runList (bs : List Bool) (s : SimState) : SimState :=
  bs.foldl (fun s b => tickStep b s) s

/-! ## Chat command dispatch (main.go, handleChatPacket) -/

/-- The three chat commands recognised by the bot. -/
inductive ChatCommand
  | stop
  | mine
  | me
deriving DecidableEq

/-- The `switch word` of handleChatPacket: a word dispatches a command
exactly when it is one of the three literal tokens. -/
def classifyWord (w : List Char) : Option ChatCommand :=
  if w = "!stop".data then some ChatCommand.stop
  else if w = "!mine".data then some ChatCommand.mine
  else if w = "!me".data then some ChatCommand.me
  else none

/-- Go's `strings.Fields`: the maximal runs of non-whitespace characters of
the input, in order. -/
def goFields (s : List Char) : List (List Char) :=
  (List.splitOnP (fun c => c.isWhitespace) s).filter (fun w => w ≠ [])

/-- handleChatPacket (main.go lines 184-217): lower-case the message text,
split it into whitespace-separated words, and dispatch on the first word
that is a recognised command token (the loop returns on the first match);
`none` means no command is dispatched for this message. -/
def handleChatPacket (msg : List Char) : Option ChatCommand :=
  (goFields (msg.map Char.toLower)).findSome? classifyWord

/-! ## Stop handler (main.go, handleStopCommand) -/

/-- Externally visible actions performed by the command handlers. -/
inductive SessionEffect
  | sendChat (msg : List Char)
  | sleepMillis (n : Nat)
  | setStopFlag
  | closeConnection
  | exitProcess (code : Nat)
deriving DecidableEq

/-- Effect trace of handleStopCommand (main.go lines 299-316), in program
order; log statements are omitted. -/
def handleStopCommand : List SessionEffect :=
  [SessionEffect.sendChat ("Goodbye!".data),
   SessionEffect.sleepMillis 1000,
   SessionEffect.setStopFlag,
   SessionEffect.closeConnection,
   SessionEffect.exitProcess 0]

/-! ## Position encoding (main.go, sendDigging) -/

/-- Unsigned 64-bit pattern of a Go `int` value (two's complement). -/
def toBits64 (x : Int) : Nat := (x % (2 ^ 64)).toNat

/-- The position computed by sendDigging (main.go line 255): Go evaluates
`int64(x&0x3FFFFFF)<<38 | int64(z&0x3FFFFFF)<<12 | int64(y&0xFFF)` in
64-bit two's complement arithmetic; this definition is the unsigned bit
pattern of that value, with the wrap-around of each shift made explicit. -/
def sendDiggingPosition (x y z : Int) : Nat :=
  ((((toBits64 x &&& 0x3FFFFFF) <<< 38) % 2 ^ 64) |||
   (((toBits64 z &&& 0x3FFFFFF) <<< 12) % 2 ^ 64) |||
   (toBits64 y &&& 0xFFF)) % 2 ^ 64

/-! ## Negotiation script run (fix-protocol.sh, second revision) -/

/-- Classified outcome of one connection trial (spec §4.2). -/
inductive TrialOutcome
  | joined
  | incompatibleClient
  | connectionFailed
  | unknownResult
deriving DecidableEq

/-- Per-candidate marks recorded in the `.protocol-attempts` ledger. -/
inductive AttemptMark
  | failedMark
  | successMark
  | unknownMark
deriving DecidableEq

/-- Durable state touched by fix-protocol.sh: the `.protocol-version`
record, the `.protocol-attempts` ledger, the `ProtocolVersion` constant in
the patched library source `go-mc-local/bot/mcbot.go`, and the
`mcbot.go.original` backup file (holding the pre-run constant when
present). -/
structure ScriptState where
  protocolFile : Option Int
  attempts : List (Int × AttemptMark)
  mcbotVersion : Int
  mcbotOriginal : Option Int
deriving DecidableEq

/-- Observable result of one script run: process exit code, the protocol
version it reports, and how many connection trials were attempted. -/
structure RunResult where
  exitCode : Nat
  version : Option Int
  trials : Nat
deriving DecidableEq

/-- Body of the candidate loop of fix-protocol.sh (lines 724-850), folded
over the candidate list.  The accumulator carries the script state, the
working protocol found so far (the shell `break` on success is modelled by
passing every later candidate through unchanged), and the trial count.
Before anything else the first iteration backs up the original `mcbot.go`;
a candidate marked failed in the ledger is skipped (the script performs
this check regardless of `--force`); otherwise the library constant is
patched to the candidate, the build-and-connect trial runs, and its
classified outcome is appended to the ledger. -/
def trialLoopStep (oracle : Int → TrialOutcome)
    (acc : ScriptState × Option Int × Nat) (c : Int) :
    ScriptState × Option Int × Nat :=
  let (st, working, trials) := acc
  match working with
  | some w => (st, some w, trials)
  | none =>
    let st1 := if st.mcbotOriginal = none
      then { st with mcbotOriginal := some st.mcbotVersion } else st
    if (c, AttemptMark.failedMark) ∈ st1.attempts then (st1, none, trials)
    else
      let st2 := { st1 with mcbotVersion := c }
      match oracle c with
      | TrialOutcome.joined =>
          ({ st2 with attempts := st2.attempts ++ [(c, AttemptMark.successMark)] },
           some c, trials + 1)
      | TrialOutcome.incompatibleClient =>
          ({ st2 with attempts := st2.attempts ++ [(c, AttemptMark.failedMark)] },
           none, trials + 1)
      | TrialOutcome.connectionFailed =>
          ({ st2 with attempts := st2.attempts ++ [(c, AttemptMark.failedMark)] },
           none, trials + 1)
      | TrialOutcome.unknownResult =>
          ({ st2 with attempts := st2.attempts ++ [(c, AttemptMark.unknownMark)] },
           none, trials + 1)

/-- One run of fix-protocol.sh (second revision).  When `.protocol-version`
exists and `--force` is not given, the script reports the saved version and
exits 0 before any trial (lines 525-535).  Otherwise it runs the candidate
loop, then removes the `mcbot.go.original` backup (line 854), and finally
either persists the working version and exits 0, or — exhaustion — tries to
restore `mcbot.go` from the already-deleted backup and exits 1
(lines 861-938). -/
def runScript (force : Bool) (candidates : List Int)
    (oracle : Int → TrialOutcome) (st : ScriptState) :
    RunResult × ScriptState :=
  match st.protocolFile, force with
  | some v, false => (⟨0, some v, 0⟩, st)
  | _, _ =>
    let (st1, working, trials) :=
      candidates.foldl (trialLoopStep oracle) (st, none, 0)
    let st2 := { st1 with mcbotOriginal := none }
    match working with
    | some w => (⟨0, some w, trials⟩, { st2 with protocolFile := some w })
    | none =>
      let st3 := match st2.mcbotOriginal with
        | some o => { st2 with mcbotVersion := o, mcbotOriginal := none }
        | none => st2
      (⟨1, none, trials⟩, st3)

/-! ## Interleaving semantics of the mining session (main.go, mutex
granularity) -/

/-- Control point of one `simulateMining` goroutine between atomic
(mutex-protected) sections: about to read the stop flag; stop flag read and
found clear; holding local copies of durability and tick counter read in
the first `miningMutex` section; or exited. -/
inductive MinerPC
  | loopStart
  | stopChecked
  | postRead (ld lt : Int)
  | done
deriving DecidableEq

/-- Shared session state plus the control points of every live
`simulateMining` goroutine. -/
structure MinerConfig where
  durability : Int
  ticks : Int
  stopFlag : Bool
  miners : List MinerPC
  breaks : Nat
deriving DecidableEq

/-- One atomic step of a single `simulateMining` goroutine at control point
`pc`: the stop-flag read; the first mutex section (read durability and
ticks, increment ticks); then, on the local copies, either the
non-positive-durability exit, the second mutex section (deduct 5 from the
*current* shared durability) followed by the break-notification check on
its result, or the plain loop-around.  The arm-swing send touches no shared
state and is omitted. -/
def minerStep (pc : MinerPC) (c : MinerConfig) : MinerPC × MinerConfig :=
  match pc with
  | MinerPC.loopStart =>
      if c.stopFlag then (MinerPC.done, c) else (MinerPC.stopChecked, c)
  | MinerPC.stopChecked =>
      (MinerPC.postRead c.durability c.ticks, { c with ticks := c.ticks + 1 })
  | MinerPC.postRead ld lt =>
      if ld ≤ 0 then (MinerPC.done, c)
      else if lt % 40 = 0 then
        let d2 := c.durability - 5
        if d2 ≤ 0 then
          (MinerPC.done, { c with durability := d2, breaks := c.breaks + 1 })
        else (MinerPC.loopStart, { c with durability := d2 })
      else (MinerPC.loopStart, c)
  | MinerPC.done => (MinerPC.done, c)

/-- Scheduler choice: run one atomic step of goroutine `i`, or deliver a
`!mine` command (handleMineCommand: reset durability to 100 and ticks to 0
under the mutex, then spawn a fresh `simulateMining` goroutine). -/
inductive SchedChoice
  | act (i : Nat)
  | mineCommand
deriving DecidableEq

/-- Apply one scheduler choice to a configuration. -/
def applyChoice (c : MinerConfig) : SchedChoice → MinerConfig
  | SchedChoice.act i =>
      match c.miners.get? i with
      | some pc =>
          let r := minerStep pc c
          { r.2 with miners := r.2.miners.set i r.1 }
      | none => c
  | SchedChoice.mineCommand =>
      { c with durability := 100, ticks := 0,
               miners := c.miners ++ [MinerPC.loopStart] }

/-- Execute a whole schedule of choices. -/
def execChoices (cs : List SchedChoice) (c : MinerConfig) : MinerConfig :=
  cs.foldl applyChoice c

/-- Configuration right after the first `!mine` activation: durability 100,
ticks 0, one goroutine about to run its first tick. -/
def initConfig : MinerConfig := ⟨100, 0, false, [MinerPC.loopStart], 0⟩

/-- 120 consecutive atomic steps of the second goroutine: 40 full ticks of
three atomic sections each. -/
def chunk120 : List SchedChoice := List.replicate 120 (SchedChoice.act 1)

/-- A schedule interleaving one `!mine` command with an in-flight tick: the
first goroutine reads durability 100 at tick 0 and is preempted before its
deduction section; the `!mine` reset spawns a second goroutine which runs
alone to tool break (761 ticks of three atomic steps each, durability 0);
then the first goroutine's pending deduction runs. -/
def raceSchedule : List SchedChoice :=
  [SchedChoice.act 0, SchedChoice.act 0, SchedChoice.mineCommand]
    ++ chunk120 ++ chunk120 ++ chunk120 ++ chunk120 ++ chunk120
    ++ chunk120 ++ chunk120 ++ chunk120 ++ chunk120 ++ chunk120
    ++ chunk120 ++ chunk120 ++ chunk120 ++ chunk120 ++ chunk120
    ++ chunk120 ++ chunk120 ++ chunk120 ++ chunk120
    ++ [SchedChoice.act 1, SchedChoice.act 1, SchedChoice.act 1,
        SchedChoice.act 0]

theorem tickStep_frozen (b : Bool) (s : SimState) (hf : s.finished = true) :
    tickStep b s = s := by
  simp [tickStep, hf]

theorem runList_frozen (bs : List Bool) (s : SimState) (hf : s.finished = true) :
    runList bs s = s := by
  induction bs with
  | nil => rfl
  | cons b bs ih => simp [runList, List.foldl_cons, tickStep_frozen b s hf]; exact ih

theorem tickStep_no_deduct (s : SimState) (hf : s.finished = false)
    (hd : 0 < s.durability) (ht : s.ticks % 40 ≠ 0) :
    (tickStep false s).durability = s.durability ∧
    (tickStep false s).ticks = s.ticks + 1 ∧
    (tickStep false s).finished = false ∧
    (tickStep false s).breaks = s.breaks := by
  have hd0 : ¬ s.durability ≤ 0 := by omega
  by_cases h10 : s.ticks % 10 = 0 <;>
    simp [tickStep, hf, h10, ht, hd0]

theorem tickStep_deduct (s : SimState) (hf : s.finished = false)
    (hd : 5 < s.durability) (ht : s.ticks % 40 = 0) :
    (tickStep false s).durability = s.durability - 5 ∧
    (tickStep false s).ticks = s.ticks + 1 ∧
    (tickStep false s).finished = false := by
  have h10 : s.ticks % 10 = 0 := by omega
  have hd0 : ¬ s.durability ≤ 0 := by omega
  have hd5 : ¬ s.durability - 5 ≤ 0 := by omega
  simp [tickStep, hf, h10, ht, hd0, hd5]

theorem tickStep_break (s : SimState) (hf : s.finished = false)
    (h0 : 0 < s.durability) (h5 : s.durability ≤ 5) (ht : s.ticks % 40 = 0) :
    (tickStep false s).durability = s.durability - 5 ∧
    (tickStep false s).finished = true ∧
    (tickStep false s).breaks = s.breaks + 1 := by
  have h10 : s.ticks % 10 = 0 := by omega
  have hd0 : ¬ s.durability ≤ 0 := by omega
  have hd5 : s.durability - 5 ≤ 0 := by omega
  simp [tickStep, hf, h10, ht, hd0, hd5]

theorem runFor_add (a b : Nat) (s : SimState) :
    runFor (a + b) s = runFor b (runFor a s) := by
  induction a generalizing s with
  | zero => simp [runFor]
  | succ n ih =>
      have : n + 1 + b = (n + b) + 1 := by omega
      rw [this]
      show runFor (n + b) (tickStep false s) = runFor b (runFor n (tickStep false s))
      exact ih (tickStep false s)

theorem run_plain_dur : ∀ (r : Nat) (s : SimState), s.finished = false →
    0 < s.durability → (∀ i : Nat, i < r → (s.ticks + i) % 40 ≠ 0) →
    (runFor r s).durability = s.durability ∧
    (runFor r s).ticks = s.ticks + r ∧
    (runFor r s).finished = false := by
  intro r
  induction r with
  | zero => intro s hf hd _; exact ⟨rfl, by simp [runFor], hf⟩
  | succ n ih =>
      intro s hf hd hm
      have h0 : s.ticks % 40 ≠ 0 := by
        have := hm 0 (by omega)
        simpa using this
      obtain ⟨hsd, hst, hsf, _⟩ := tickStep_no_deduct s hf hd h0
      have hrw : runFor (n + 1) s = runFor n (tickStep false s) := rfl
      rw [hrw]
      have hm' : ∀ i : Nat, i < n → ((tickStep false s).ticks + i) % 40 ≠ 0 := by
        intro i hi
        rw [hst]
        have := hm (i + 1) (by omega)
        have harith : s.ticks + 1 + (i : Int) = s.ticks + ((i : Int) + 1) := by ring
        rw [harith]
        push_cast at this ⊢
        omega
      obtain ⟨h1, h2, h3⟩ := ih (tickStep false s) hsf (by omega) hm'
      refine ⟨by rw [h1, hsd], by rw [h2, hst]; push_cast; ring, h3⟩

theorem runFor_block (s : SimState) (hf : s.finished = false)
    (hd : 5 < s.durability) (ht : s.ticks % 40 = 0) :
    (runFor 40 s).durability = s.durability - 5 ∧
    (runFor 40 s).ticks = s.ticks + 40 ∧
    (runFor 40 s).finished = false := by
  obtain ⟨hsd, hst, hsf⟩ := tickStep_deduct s hf hd ht
  have hrw : runFor 40 s = runFor 39 (tickStep false s) := rfl
  rw [hrw]
  have hm : ∀ i : Nat, i < 39 → ((tickStep false s).ticks + i) % 40 ≠ 0 := by
    intro i hi
    rw [hst]
    omega
  obtain ⟨h1, h2, h3⟩ := run_plain_dur 39 (tickStep false s) hsf (by omega) hm
  refine ⟨by rw [h1, hsd], by rw [h2, hst]; ring, h3⟩

theorem stateAt40 : ∀ j : Nat, j ≤ 19 →
    (runFor (40 * j) initMining).durability = 100 - 5 * (j : Int) ∧
    (runFor (40 * j) initMining).ticks = 40 * (j : Int) ∧
    (runFor (40 * j) initMining).finished = false := by
  intro j
  induction j with
  | zero => intro _; refine ⟨by norm_num [runFor, initMining], by norm_num [runFor, initMining], by norm_num [runFor, initMining]⟩
  | succ n ih =>
      intro hn
      obtain ⟨hd, ht, hf⟩ := ih (by omega)
      have hsplit : 40 * (n + 1) = 40 * n + 40 := by ring
      rw [hsplit, runFor_add]
      obtain ⟨h1, h2, h3⟩ := runFor_block (runFor (40 * n) initMining) hf
        (by rw [hd]; omega) (by rw [ht]; omega)
      refine ⟨?_, ?_, h3⟩
      · rw [h1, hd]; push_cast; ring
      · rw [h2, ht]; push_cast; ring

/-- C2: in a run that starts from a fresh activation (durability 100) with
the stop flag never set, the durability observed after the k-th
durability-interval deduction (which happens during tick `40*(k-1)+1`,
since the deduction fires when the pre-increment tick counter is a multiple
of 40) equals `100 - 5*k`, for every k up to the breaking 20th interval; in
particular durability is 95 after tick 40 and 90 after tick 80. -/
theorem durability_after_deduction :
    (∀ k : Nat, 1 ≤ k → k ≤ 20 →
      (runFor (40 * (k - 1) + 1) initMining).durability = 100 - 5 * (k : Int))
    ∧ (runFor 40 initMining).durability = 95
    ∧ (runFor 80 initMining).durability = 90 := by
  refine ⟨?_, ?_, ?_⟩
  · intro k hk1 hk20
    obtain ⟨hd, ht, hf⟩ := stateAt40 (k - 1) (by omega)
    rw [runFor_add, show runFor 1 = tickStep false from rfl]
    by_cases hk : k ≤ 19
    · obtain ⟨h1, _, _⟩ := tickStep_deduct (runFor (40 * (k - 1)) initMining) hf
        (by rw [hd]; omega) (by rw [ht]; omega)
      rw [h1, hd]
      omega
    · have hk20' : k = 20 := by omega
      obtain ⟨h1, _, _⟩ := tickStep_break (runFor (40 * (k - 1)) initMining) hf
        (by rw [hd]; omega) (by rw [hd]; omega) (by rw [ht]; omega)
      rw [h1, hd]
      omega
  · have := stateAt40 1 (by omega)
    simpa using this.1
  · have h2 := stateAt40 2 (by omega)
    have : (80 : Nat) = 40 * 2 := by norm_num
    rw [this]
    simpa using h2.1

theorem tickStep_breaks_inv (b : Bool) (s : SimState)
    (h0 : s.finished = false → s.breaks = 0) (h1 : s.breaks ≤ 1) :
    ((tickStep b s).finished = false → (tickStep b s).breaks = 0) ∧
    (tickStep b s).breaks ≤ 1 := by
  by_cases hf : s.finished = true
  · rw [tickStep_frozen b s hf]
    exact ⟨h0, h1⟩
  · have hf' : s.finished = false := by simp_all
    have hb0 : s.breaks = 0 := h0 hf'
    by_cases h10 : s.ticks % 10 = 0 <;>
      by_cases h40 : s.ticks % 40 = 0 <;>
      by_cases hstop : b = true <;>
      by_cases hd0 : s.durability ≤ 0 <;>
      by_cases hd5 : s.durability - 5 ≤ 0 <;>
      simp [tickStep, hf', hb0, h10, h40, hstop, hd0, hd5]

theorem runFor_breaks_le_one : ∀ (n : Nat) (s : SimState),
    (s.finished = false → s.breaks = 0) → s.breaks ≤ 1 →
    ((runFor n s).finished = false → (runFor n s).breaks = 0) ∧
    (runFor n s).breaks ≤ 1 := by
  intro n
  induction n with
  | zero => intro s h0 h1; exact ⟨h0, h1⟩
  | succ m ih =>
      intro s h0 h1
      have hrw : runFor (m + 1) s = runFor m (tickStep false s) := rfl
      rw [hrw]
      obtain ⟨g0, g1⟩ := tickStep_breaks_inv false s h0 h1
      exact ih (tickStep false s) g0 g1

/-- C3: when a durability deduction brings durability to a value `≤ 0`
(overshoot included, not only exactly 0), the tick emits exactly one break
notification and finishes the activation; a finished activation consumes
no further ticks (no deductions, arm swings or mine actions); and over any
stop-free run from a fresh activation at most one break notification is
ever emitted. -/
theorem break_notification_exactly_once :
    (∀ s : SimState, s.finished = false → 0 < s.durability → s.durability ≤ 5 →
      s.ticks % 40 = 0 →
      (tickStep false s).breaks = s.breaks + 1 ∧ (tickStep false s).finished = true)
    ∧ (∀ (s : SimState) (bs : List Bool), s.finished = true → runList bs s = s)
    ∧ (∀ n : Nat, (runFor n initMining).breaks ≤ 1) := by
  refine ⟨?_, ?_, ?_⟩
  · intro s hf h0 h5 ht
    obtain ⟨_, h2, h3⟩ := tickStep_break s hf h0 h5 ht
    exact ⟨h3, h2⟩
  · intro s bs hf
    exact runList_frozen bs s hf
  · intro n
    exact (runFor_breaks_le_one n initMining (fun _ => rfl) (by norm_num [initMining])).2

/-- C3 witness: the overshoot conjunct instantiated at a state with
durability 3 about to be deducted (3 - 5 = −2 ≤ 0). -/
theorem break_notification_exactly_once_witness :
    (tickStep false ⟨3, 40, false, 0, 0, 0⟩).breaks = 0 + 1 ∧
    (tickStep false ⟨3, 40, false, 0, 0, 0⟩).finished = true :=
  break_notification_exactly_once.1 ⟨3, 40, false, 0, 0, 0⟩ rfl (by norm_num)
    (by norm_num) (by norm_num)

/-- C8: a tick that observes the stop flag set transitions straight to the
stopped state regardless of remaining durability — the only change to the
session state is the loop exit, so no arm swing, deduction, mine action or
break notification happens on that tick (the stop flag is checked before
any other work) — and no side effect happens on any later tick of the
activation. -/
theorem stop_flag_checked_first :
    (∀ s : SimState, s.finished = false →
      tickStep true s = { s with finished := true })
    ∧ (∀ (s : SimState) (bs : List Bool), s.finished = true → runList bs s = s) := by
  refine ⟨?_, ?_⟩
  · intro s hf
    simp [tickStep, hf]
  · intro s bs hf
    exact runList_frozen bs s hf

/-- C8 witness: the stop-observed-tick conjunct instantiated at a state
with negative remaining durability. -/
theorem stop_flag_checked_first_witness :
    tickStep true ⟨-7, 3, false, 1, 2, 0⟩ = ⟨-7, 3, true, 1, 2, 0⟩ :=
  stop_flag_checked_first.1 ⟨-7, 3, false, 1, 2, 0⟩ rfl

/-- C2 witness: the deduction-schedule conjunct instantiated at k = 1. -/
theorem durability_after_deduction_witness :
    (runFor (40 * (1 - 1) + 1) initMining).durability = 100 - 5 * ((1 : Nat) : Int) := by
  exact durability_after_deduction.1 1 (by norm_num) (by norm_num)

theorem windowList_head (r : Int) (k : Nat) : ∃ t, windowList r k = r :: t := by
  induction k with
  | zero => exact ⟨[], rfl⟩
  | succ n ih =>
      obtain ⟨t, ht⟩ := ih
      exact ⟨t ++ (if 0 < r - (n + 1 : Int) then [r - (n + 1 : Int)] else [])
        ++ [r + (n + 1 : Int)], by simp [windowList, ht]⟩

theorem mem_windowList_succ (r : Int) (n : Nat) (x : Int) :
    x ∈ windowList r (n + 1) ↔ x ∈ windowList r n ∨
      (0 < r - (n + 1 : Int) ∧ x = r - (n + 1 : Int)) ∨ x = r + (n + 1 : Int) := by
  by_cases hc : 0 < r - (n + 1 : Int) <;> simp [windowList, hc]

theorem windowList_bound (r : Int) (k : Nat) :
    ∀ x ∈ windowList r k, r - k ≤ x ∧ x ≤ r + k := by
  induction k with
  | zero => intro x hx; simp [windowList] at hx; omega
  | succ n ih =>
      intro x hx
      rw [mem_windowList_succ] at hx
      rcases hx with hx | ⟨hc, rfl⟩ | rfl
      · have := ih x hx
        push_cast
        push_cast at this
        omega
      · push_cast; omega
      · push_cast; omega

theorem windowList_nodup (r : Int) (k : Nat) : (windowList r k).Nodup := by
  induction k with
  | zero => simp [windowList]
  | succ n ih =>
      have hb := windowList_bound r n
      have h1 : r - (n + 1 : Int) ∉ windowList r n := by
        intro hmem
        have := hb _ hmem
        push_cast at this
        omega
      have h2 : r + (n + 1 : Int) ∉ windowList r n := by
        intro hmem
        have := hb _ hmem
        push_cast at this
        omega
      have h3 : r - (n + 1 : Int) ≠ r + (n + 1 : Int) := by
        omega
      by_cases hc : 0 < r - (n + 1 : Int) <;>
        simp [windowList, hc, List.nodup_append, ih, h1, h2, h3]

theorem windowList_mem_iff (r : Int) (k : Nat) (x : Int) :
    x ∈ windowList r k ↔ x = r ∨
      ∃ o : Nat, 1 ≤ o ∧ o ≤ k ∧
        (x = r + (o : Int) ∨ (x = r - (o : Int) ∧ 0 < x)) := by
  induction k with
  | zero =>
      simp [windowList]
      rintro x ho1 ho2
      omega
  | succ n ih =>
      rw [mem_windowList_succ, ih]
      constructor
      · rintro ((rfl | ⟨o, ho1, ho2, ho3⟩) | ⟨hc, rfl⟩ | rfl)
        · exact Or.inl rfl
        · exact Or.inr ⟨o, ho1, by omega, ho3⟩
        · refine Or.inr ⟨n + 1, by omega, by omega, Or.inr ⟨by push_cast; ring, by omega⟩⟩
        · exact Or.inr ⟨n + 1, by omega, by omega, Or.inl (by push_cast; ring)⟩
      · rintro (rfl | ⟨o, ho1, ho2, ho3⟩)
        · exact Or.inl (Or.inl rfl)
        · by_cases ho : o ≤ n
          · exact Or.inl (Or.inr ⟨o, ho1, ho, ho3⟩)
          · have hoe : o = n + 1 := by omega
            subst hoe
            rcases ho3 with h | ⟨h, hx⟩
            · refine Or.inr (Or.inr ?_)
              rw [h]
              push_cast
              ring
            · refine Or.inr (Or.inl ⟨by omega, ?_⟩)
              rw [h]
              push_cast
              ring

theorem dedupAppend_nil (a : List Int) : dedupAppend a [] = a := rfl

theorem dedupAppend_cons (a : List Int) (p : Int) (ds : List Int) :
    dedupAppend a (p :: ds) = dedupAppend (if p ∈ a then a else a ++ [p]) ds := rfl

theorem dedupAppend_extends : ∀ (ds a : List Int), ∃ u, dedupAppend a ds = a ++ u := by
  intro ds
  induction ds with
  | nil => intro a; exact ⟨[], by simp [dedupAppend]⟩
  | cons p ds ih =>
      intro a
      by_cases hp : p ∈ a
      · obtain ⟨u, hu⟩ := ih a
        exact ⟨u, by rw [dedupAppend_cons, if_pos hp]; exact hu⟩
      · obtain ⟨u, hu⟩ := ih (a ++ [p])
        refine ⟨[p] ++ u, ?_⟩
        rw [dedupAppend_cons, if_neg hp, hu]
        simp

theorem dedupAppend_mem : ∀ (ds a : List Int) (x : Int),
    x ∈ dedupAppend a ds ↔ x ∈ a ∨ x ∈ ds := by
  intro ds
  induction ds with
  | nil => intro a x; simp [dedupAppend]
  | cons p ds ih =>
      intro a x
      by_cases hp : p ∈ a
      · rw [dedupAppend_cons, if_pos hp, ih]
        by_cases hx : x = p
        · simp [hx, hp]
        · simp [hx]
      · rw [dedupAppend_cons, if_neg hp, ih]
        by_cases hx : x = p
        · simp [hx]
        · simp [hx]

theorem dedupAppend_eq_filtered : ∀ (ds a : List Int),
    dedupAppend a ds = a ++ specFilteredDefaults a ds := by
  intro ds
  induction ds with
  | nil => intro a; simp [dedupAppend, specFilteredDefaults]
  | cons p ds ih =>
      intro a
      by_cases hp : p ∈ a
      · rw [dedupAppend_cons, if_pos hp, ih a]
        simp [specFilteredDefaults, hp]
      · rw [dedupAppend_cons, if_neg hp, ih (a ++ [p])]
        simp [specFilteredDefaults, hp]

theorem dedupAppend_nodup : ∀ (ds a : List Int), a.Nodup → (dedupAppend a ds).Nodup := by
  intro ds
  induction ds with
  | nil => intro a ha; exact ha
  | cons p ds ih =>
      intro a ha
      by_cases hp : p ∈ a
      · rw [dedupAppend_cons, if_pos hp]
        exact ih a ha
      · rw [dedupAppend_cons, if_neg hp]
        refine ih (a ++ [p]) ?_
        simp [List.nodup_append, ha, hp]

/-- C1 (amended): for every reported version, defaults list and window
radius, the candidate list built by `buildCandidates` begins with the
reported version when one is present, is exactly the defaults list when the
reported version is absent, is duplicate-free whenever the reported version
is present (for every defaults list) and — as the amendment requires — also
when the reported version is absent provided the defaults list itself is
duplicate-free; its members are exactly the reported version, the positive
window values `reported ± o` for offsets `1 ≤ o ≤ radius`, and the
defaults; when the reported version is present the result is exactly the
window block (reported first, then the window values interleaved by
increasing offset with non-positive values skipped) followed by the
defaults with values already present omitted in first-seen order
(`specFilteredDefaults`); and the spec's concrete example evaluates to
`[770, 769, 771, 768, 772, 766]`. -/
theorem buildCandidates_spec :
    (∀ (r : Int) (ds : List Int) (k : Nat),
      ∃ t, buildCandidates (some r) ds k = r :: t)
    ∧ (∀ (ds : List Int) (k : Nat), buildCandidates none ds k = ds)
    ∧ (∀ (r : Int) (ds : List Int) (k : Nat), (buildCandidates (some r) ds k).Nodup)
    ∧ (∀ (reported : Option Int) (ds : List Int) (k : Nat), ds.Nodup →
        (buildCandidates reported ds k).Nodup)
    ∧ (∀ (r x : Int) (ds : List Int) (k : Nat),
        x ∈ buildCandidates (some r) ds k ↔
          (x = r ∨ ∃ o : Nat, 1 ≤ o ∧ o ≤ k ∧
            (x = r + (o : Int) ∨ (x = r - (o : Int) ∧ 0 < x))) ∨ x ∈ ds)
    ∧ (∀ (r : Int) (ds : List Int) (k : Nat),
        buildCandidates (some r) ds k
          = windowList r k ++ specFilteredDefaults (windowList r k) ds)
    ∧ buildCandidates (some 770) [768, 769, 770, 771, 766] 2
        = [770, 769, 771, 768, 772, 766] := by
  refine ⟨?_, ?_, ?_, ?_, ?_, ?_, ?_⟩
  · intro r ds k
    obtain ⟨t, ht⟩ := windowList_head r k
    obtain ⟨u, hu⟩ := dedupAppend_extends ds (windowList r k)
    exact ⟨t ++ u, by rw [buildCandidates, hu, ht]; simp⟩
  · intro ds k
    rfl
  · intro r ds k
    exact dedupAppend_nodup ds (windowList r k) (windowList_nodup r k)
  · rintro (_ | r) ds k hds
    · exact hds
    · exact dedupAppend_nodup ds (windowList r k) (windowList_nodup r k)
  · intro r x ds k
    rw [buildCandidates, dedupAppend_mem, windowList_mem_iff]
  · intro r ds k
    exact dedupAppend_eq_filtered ds (windowList r k)
  · decide

/-- C1 witness: the duplicate-freeness conjunct instantiated at the absent
reported version and the script's (duplicate-free) default list. -/
theorem buildCandidates_spec_witness :
    (buildCandidates none [768, 769, 770, 771, 766] 2).Nodup :=
  buildCandidates_spec.2.2.2.1 none [768, 769, 770, 771, 766] 2 (by decide)

/-- C1 counterexample: with the reported version absent the builder copies
the defaults verbatim, so a duplicated defaults list yields a duplicated
candidate list, refuting the claim's unconditional duplicate-freeness over
every defaults list. -/
theorem buildCandidates_dup_defaults_counterexample :
    ¬ (buildCandidates none [768, 768] 2).Nodup := by decide

theorem findSome?_all_none {α β : Type} (f : α → Option β) :
    ∀ l : List α, (∀ u ∈ l, f u = none) → l.findSome? f = none := by
  intro l
  induction l with
  | nil => intro _; rfl
  | cons a l ih =>
      intro h
      rw [List.findSome?_cons]
      rw [h a (by simp)]
      exact ih fun u hu => h u (by simp [hu])

theorem findSome?_first_hit {α β : Type} (f : α → Option β) (c : β) :
    ∀ (l₁ : List α) (w : α) (l₂ : List α),
      (∀ u ∈ l₁, f u = none) → f w = some c →
      (l₁ ++ w :: l₂).findSome? f = some c := by
  intro l₁
  induction l₁ with
  | nil =>
      intro w l₂ _ hw
      rw [List.nil_append, List.findSome?_cons, hw]
  | cons a l ih =>
      intro w l₂ h hw
      rw [List.cons_append, List.findSome?_cons, h a (by simp)]
      exact ih w l₂ (fun u hu => h u (by simp [hu])) hw

/-- C6: command classification lower-cases the message and matches the
tokens `!stop`, `!mine`, `!me` as whole whitespace-separated words only —
`hey !mine please` dispatches mine, `my diamond is mineral` dispatches
nothing, `!stop !mine` dispatches only stop, matching is case-insensitive —
and in general a message with no recognised word dispatches nothing while a
message whose first recognised word is `w` dispatches exactly the command
of `w` (at most one command per message). -/
theorem chat_command_classification :
    handleChatPacket ("hey !mine please".data) = some ChatCommand.mine
    ∧ handleChatPacket ("my diamond is mineral".data) = none
    ∧ handleChatPacket ("!stop !mine".data) = some ChatCommand.stop
    ∧ handleChatPacket ("!MiNe".data) = some ChatCommand.mine
    ∧ (∀ msg : List Char,
        (∀ u ∈ goFields (msg.map Char.toLower), classifyWord u = none) →
        handleChatPacket msg = none)
    ∧ (∀ (msg : List Char) (pre : List (List Char)) (w : List Char)
        (post : List (List Char)) (c : ChatCommand),
        goFields (msg.map Char.toLower) = pre ++ w :: post →
        (∀ u ∈ pre, classifyWord u = none) → classifyWord w = some c →
        handleChatPacket msg = some c) := by
  refine ⟨by decide, by decide, by decide, by decide, ?_, ?_⟩
  · intro msg h
    exact findSome?_all_none classifyWord _ h
  · intro msg pre w post c hsplit hpre hw
    rw [handleChatPacket, hsplit]
    exact findSome?_first_hit classifyWord c pre w post hpre hw

/-- C6 witness: the first-recognised-word conjunct instantiated at the
message `!me at spawn`. -/
theorem chat_command_classification_witness :
    handleChatPacket ("!me at spawn".data) = some ChatCommand.me := by
  refine chat_command_classification.2.2.2.2.2 ("!me at spawn".data)
    [] ("!me".data) [("at".data), ("spawn".data)] ChatCommand.me (by decide)
    (by decide) (by decide)

/-- C7 counterexample: in the stop-handler's effect trace the stop flag is
not set before the farewell notification is sent — the code sends the
farewell first, refuting the claim's ordering. -/
theorem stop_command_order_counterexample :
    ¬ handleStopCommand.indexOf SessionEffect.setStopFlag
        < handleStopCommand.indexOf (SessionEffect.sendChat ("Goodbye!".data)) := by
  decide

/-- C7 (amended): the stop command handler performs, in this order: send
the farewell notification, wait a short fixed grace period, set the shared
stop flag, then terminate the process. -/
theorem stop_command_order :
    handleStopCommand.indexOf (SessionEffect.sendChat ("Goodbye!".data))
      < handleStopCommand.indexOf (SessionEffect.sleepMillis 1000)
    ∧ handleStopCommand.indexOf (SessionEffect.sleepMillis 1000)
      < handleStopCommand.indexOf SessionEffect.setStopFlag
    ∧ handleStopCommand.indexOf SessionEffect.setStopFlag
      < handleStopCommand.indexOf (SessionEffect.exitProcess 0)
    ∧ SessionEffect.setStopFlag ∈ handleStopCommand
    ∧ SessionEffect.sendChat ("Goodbye!".data) ∈ handleStopCommand
    ∧ SessionEffect.sleepMillis 1000 ∈ handleStopCommand
    ∧ SessionEffect.exitProcess 0 ∈ handleStopCommand := by
  decide

theorem toBits64_mask26 (x : Int) : toBits64 x &&& 0x3FFFFFF = (x % 2 ^ 26).toNat := by
  have h : (0x3FFFFFF : Nat) = 2 ^ 26 - 1 := by norm_num
  rw [toBits64, h, Nat.and_pow_two_sub_one_eq_mod]
  omega

theorem toBits64_mask12 (x : Int) : toBits64 x &&& 0xFFF = (x % 2 ^ 12).toNat := by
  have h : (0xFFF : Nat) = 2 ^ 12 - 1 := by norm_num
  rw [toBits64, h, Nat.and_pow_two_sub_one_eq_mod]
  omega

/-- C9: for all integer block coordinates, the outbound dig packet encodes
the position as the 64-bit value
`((x mod 2^26) <<< 38) ||| ((z mod 2^26) <<< 12) ||| (y mod 2^12)`: the Go
mask-and-shift expression of sendDigging equals X and Z masked to 26 bits
and Y masked to 12 bits, packed as `X<<38 | Z<<12 | Y`. -/
theorem sendDigging_position_encoding (x y z : Int) :
    sendDiggingPosition x y z =
      ((x % 2 ^ 26).toNat <<< 38) ||| ((z % 2 ^ 26).toNat <<< 12) |||
        (y % 2 ^ 12).toNat := by
  have hxs : (x % 2 ^ 26).toNat <<< 38 < 2 ^ 64 := by
    have h1 : (x % 2 ^ 26).toNat * 2 ^ 38 ≤ (2 ^ 26 - 1) * 2 ^ 38 :=
      Nat.mul_le_mul_right _ (by omega)
    have h2 : ((2 : Nat) ^ 26 - 1) * 2 ^ 38 < 2 ^ 64 := by norm_num
    rw [Nat.shiftLeft_eq]
    omega
  have hzs : (z % 2 ^ 26).toNat <<< 12 < 2 ^ 64 := by
    have h1 : (z % 2 ^ 26).toNat * 2 ^ 12 ≤ (2 ^ 26 - 1) * 2 ^ 12 :=
      Nat.mul_le_mul_right _ (by omega)
    have h2 : ((2 : Nat) ^ 26 - 1) * 2 ^ 12 < 2 ^ 64 := by norm_num
    rw [Nat.shiftLeft_eq]
    omega
  have hys : (y % 2 ^ 12).toNat < 2 ^ 64 := by omega
  rw [sendDiggingPosition, toBits64_mask26 x, toBits64_mask26 z, toBits64_mask12 y]
  rw [Nat.mod_eq_of_lt hxs, Nat.mod_eq_of_lt hzs]
  exact Nat.mod_eq_of_lt (Nat.or_lt_two_pow (Nat.or_lt_two_pow hxs hzs) hys)

/-- C4 (code bug, evaluated at the failing input): when every candidate is
classified incompatible, the run exits with status 1 and writes no
`.protocol-version` record — but the `ProtocolVersion` constant in the
patched library source is left at the last tried candidate (766), not
restored to its pre-run value (767), because the script deletes the
`mcbot.go.original` backup before the exhaustion branch tries to restore
from it. -/
theorem negotiation_exhaustion_leaves_patch :
    runScript false [768, 769, 770, 771, 766] (fun _ => TrialOutcome.incompatibleClient)
        ⟨none, [], 767, none⟩
      = (⟨1, none, 5⟩,
         ⟨none,
          [(768, AttemptMark.failedMark), (769, AttemptMark.failedMark),
           (770, AttemptMark.failedMark), (771, AttemptMark.failedMark),
           (766, AttemptMark.failedMark)],
          766, none⟩)
    ∧ (runScript false [768, 769, 770, 771, 766]
        (fun _ => TrialOutcome.incompatibleClient)
        ⟨none, [], 767, none⟩).2.mcbotVersion ≠ 767 := by
  refine ⟨by decide, by decide⟩

/-- C5: when a confirmed `.protocol-version` record exists and the force
flag is not given, a run performs zero trials, changes nothing, reports the
persisted version and exits with status 0; hence a second run returns the
same version. -/
theorem saved_record_short_circuit :
    ∀ (st : ScriptState) (v : Int) (cands : List Int)
      (oracle : Int → TrialOutcome),
      st.protocolFile = some v →
      runScript false cands oracle st = (⟨0, some v, 0⟩, st)
      ∧ (runScript false cands oracle
          (runScript false cands oracle st).2).1.version = some v := by
  intro st v cands oracle h
  have h1 : runScript false cands oracle st = (⟨0, some v, 0⟩, st) := by
    unfold runScript
    rw [h]
  refine ⟨h1, ?_⟩
  rw [h1]
  show (runScript false cands oracle st).1.version = some v
  rw [h1]

/-- C5 witness: the short-circuit instantiated at a state holding the
persisted version 770. -/
theorem saved_record_short_circuit_witness :
    runScript false [768, 769] (fun _ => TrialOutcome.joined) ⟨some 770, [], 767, none⟩
        = (⟨0, some 770, 0⟩, ⟨some 770, [], 767, none⟩)
    ∧ (runScript false [768, 769] (fun _ => TrialOutcome.joined)
        (runScript false [768, 769] (fun _ => TrialOutcome.joined)
          ⟨some 770, [], 767, none⟩).2).1.version = some 770 :=
  saved_record_short_circuit ⟨some 770, [], 767, none⟩ 770 [768, 769]
    (fun _ => TrialOutcome.joined) rfl

theorem execChoices_append (l₁ l₂ : List SchedChoice) (c : MinerConfig) :
    execChoices (l₁ ++ l₂) c = execChoices l₂ (execChoices l₁ c) :=
  List.foldl_append applyChoice c l₁ l₂

set_option maxRecDepth 40000 in
/-- C10 (code bug, evaluated at the failing schedule): one `!mine` command
delivered while a tick of the previous activation is between its
read-durability section and its deduct section leads — after the freshly
spawned goroutine runs its activation down to durability 0 and the stalled
goroutine then performs its pending deduction — to durability −5, outside
the claimed range `[0,100]`. -/
theorem mine_reset_race_durability_negative :
    (execChoices raceSchedule initConfig).durability = -5 := by
  simp only [raceSchedule, execChoices_append]
  have h0 : execChoices [SchedChoice.act 0, SchedChoice.act 0, SchedChoice.mineCommand]
      initConfig
      = ⟨100, 0, false, [MinerPC.postRead 100 0, MinerPC.loopStart], 0⟩ := by decide
  rw [h0]
  have h1 : execChoices chunk120
      ⟨100, 0, false, [MinerPC.postRead 100 0, MinerPC.loopStart], 0⟩
      = ⟨95, 40, false, [MinerPC.postRead 100 0, MinerPC.loopStart], 0⟩ := by decide
  rw [h1]
  have h2 : execChoices chunk120
      ⟨95, 40, false, [MinerPC.postRead 100 0, MinerPC.loopStart], 0⟩
      = ⟨90, 80, false, [MinerPC.postRead 100 0, MinerPC.loopStart], 0⟩ := by decide
  rw [h2]
  have h3 : execChoices chunk120
      ⟨90, 80, false, [MinerPC.postRead 100 0, MinerPC.loopStart], 0⟩
      = ⟨85, 120, false, [MinerPC.postRead 100 0, MinerPC.loopStart], 0⟩ := by decide
  rw [h3]
  have h4 : execChoices chunk120
      ⟨85, 120, false, [MinerPC.postRead 100 0, MinerPC.loopStart], 0⟩
      = ⟨80, 160, false, [MinerPC.postRead 100 0, MinerPC.loopStart], 0⟩ := by decide
  rw [h4]
  have h5 : execChoices chunk120
      ⟨80, 160, false, [MinerPC.postRead 100 0, MinerPC.loopStart], 0⟩
      = ⟨75, 200, false, [MinerPC.postRead 100 0, MinerPC.loopStart], 0⟩ := by decide
  rw [h5]
  have h6 : execChoices chunk120
      ⟨75, 200, false, [MinerPC.postRead 100 0, MinerPC.loopStart], 0⟩
      = ⟨70, 240, false, [MinerPC.postRead 100 0, MinerPC.loopStart], 0⟩ := by decide
  rw [h6]
  have h7 : execChoices chunk120
      ⟨70, 240, false, [MinerPC.postRead 100 0, MinerPC.loopStart], 0⟩
      = ⟨65, 280, false, [MinerPC.postRead 100 0, MinerPC.loopStart], 0⟩ := by decide
  rw [h7]
  have h8 : execChoices chunk120
      ⟨65, 280, false, [MinerPC.postRead 100 0, MinerPC.loopStart], 0⟩
      = ⟨60, 320, false, [MinerPC.postRead 100 0, MinerPC.loopStart], 0⟩ := by decide
  rw [h8]
  have h9 : execChoices chunk120
      ⟨60, 320, false, [MinerPC.postRead 100 0, MinerPC.loopStart], 0⟩
      = ⟨55, 360, false, [MinerPC.postRead 100 0, MinerPC.loopStart], 0⟩ := by decide
  rw [h9]
  have h10 : execChoices chunk120
      ⟨55, 360, false, [MinerPC.postRead 100 0, MinerPC.loopStart], 0⟩
      = ⟨50, 400, false, [MinerPC.postRead 100 0, MinerPC.loopStart], 0⟩ := by decide
  rw [h10]
  have h11 : execChoices chunk120
      ⟨50, 400, false, [MinerPC.postRead 100 0, MinerPC.loopStart], 0⟩
      = ⟨45, 440, false, [MinerPC.postRead 100 0, MinerPC.loopStart], 0⟩ := by decide
  rw [h11]
  have h12 : execChoices chunk120
      ⟨45, 440, false, [MinerPC.postRead 100 0, MinerPC.loopStart], 0⟩
      = ⟨40, 480, false, [MinerPC.postRead 100 0, MinerPC.loopStart], 0⟩ := by decide
  rw [h12]
  have h13 : execChoices chunk120
      ⟨40, 480, false, [MinerPC.postRead 100 0, MinerPC.loopStart], 0⟩
      = ⟨35, 520, false, [MinerPC.postRead 100 0, MinerPC.loopStart], 0⟩ := by decide
  rw [h13]
  have h14 : execChoices chunk120
      ⟨35, 520, false, [MinerPC.postRead 100 0, MinerPC.loopStart], 0⟩
      = ⟨30, 560, false, [MinerPC.postRead 100 0, MinerPC.loopStart], 0⟩ := by decide
  rw [h14]
  have h15 : execChoices chunk120
      ⟨30, 560, false, [MinerPC.postRead 100 0, MinerPC.loopStart], 0⟩
      = ⟨25, 600, false, [MinerPC.postRead 100 0, MinerPC.loopStart], 0⟩ := by decide
  rw [h15]
  have h16 : execChoices chunk120
      ⟨25, 600, false, [MinerPC.postRead 100 0, MinerPC.loopStart], 0⟩
      = ⟨20, 640, false, [MinerPC.postRead 100 0, MinerPC.loopStart], 0⟩ := by decide
  rw [h16]
  have h17 : execChoices chunk120
      ⟨20, 640, false, [MinerPC.postRead 100 0, MinerPC.loopStart], 0⟩
      = ⟨15, 680, false, [MinerPC.postRead 100 0, MinerPC.loopStart], 0⟩ := by decide
  rw [h17]
  have h18 : execChoices chunk120
      ⟨15, 680, false, [MinerPC.postRead 100 0, MinerPC.loopStart], 0⟩
      = ⟨10, 720, false, [MinerPC.postRead 100 0, MinerPC.loopStart], 0⟩ := by decide
  rw [h18]
  have h19 : execChoices chunk120
      ⟨10, 720, false, [MinerPC.postRead 100 0, MinerPC.loopStart], 0⟩
      = ⟨5, 760, false, [MinerPC.postRead 100 0, MinerPC.loopStart], 0⟩ := by decide
  rw [h19]
  decide
